import Mathlib

/-!
Verification of the timemoji repository (src/moonmoji.rs, src/clockmoji.rs).

The weighted-bin selection `step_phase`, the clock mapper and the weight-sum
constant are modelled exactly: `f64` values that take part only in additions,
subtractions, multiplications and order comparisons are represented as
rational numbers, and where a claim is about the rounded binary64 sum itself
we emulate IEEE-754 round-to-nearest-even on ℚ (`toF64`, `fladd`).  The
astronomical computations (`sun_coords`, `moon_coords`, `get_phase`) call
`libm` transcendentals; they are modelled over the real numbers, the standard
idealization of floating-point trigonometry.  The call `rand::random::<f64>()`
inside `step_phase` is made an explicit parameter `r`, a draw from `[0, 1)`.
-/

/-- Entry of the `PHASES` table of `moonmoji.rs`: a glyph, a name and a
selection weight. -/
structure MoonMoji where
  emoji : String
  name : String
  weight : ℚ

/-- The ten-entry phase table `PHASES` of `moonmoji.rs` (indices 0–9). -/
def PHASES : List MoonMoji := [
  ⟨"🌑", "New Moon", 1.0⟩,
  ⟨"🌒", "Waxing Crescent", 6.3825⟩,
  ⟨"🌓", "First Quarter", 1.0⟩,
  ⟨"🌔", "Waxing Gibbous", 6.3825⟩,
  ⟨"🌕", "Full Moon", 1.0⟩,
  ⟨"🌖", "Waning Gibbous", 6.3825⟩,
  ⟨"🌗", "Last Quarter", 1.0⟩,
  ⟨"🌘", "Waning Crescent", 6.3825⟩,
  ⟨"🌚", "New Moon *", 0.0⟩,
  ⟨"🌝", "Full Moon *", 0.0⟩]

/-- The constant `PHASE_WEIGHT` of `moonmoji.rs`, the same left-to-right sum
of the ten table weights (exact rational arithmetic here; the bit-level
IEEE-754 version of the sum is `PHASE_WEIGHT_f64` below). -/
def PHASE_WEIGHT : ℚ :=
  1.0 + 6.3825 + 1.0 + 6.3825 + 1.0 + 6.3825 + 1.0 + 6.3825 + 0.0 + 0.0

/-- The `for (i, moon) in PHASES.iter().enumerate()` loop of `step_phase`:
subtract each weight from the accumulator, select the first entry that makes
it negative, apply the variant rule on selection, and return 0 when the loop
terminates without selecting. -/
def selectLoop (extra : Bool) : ℚ → List (ℕ × MoonMoji) → ℕ
  | _, [] => 0
  | acc, (i, moon) :: rest =>
    let acc2 := acc - moon.weight
    if acc2 < 0 then
      if extra = true ∧ i = 0 then 8
      else if extra = true ∧ i = 4 then 9
      else i
    else selectLoop extra acc2 rest

/-- The selection made by the weighted loop alone, without the variant rule:
`some i` when entry `i` is the first whose subtraction drives the accumulator
below zero, `none` when the loop runs through all entries. -/
def selectRes : ℚ → List (ℕ × MoonMoji) → Option ℕ
  | _, [] => none
  | acc, (i, moon) :: rest =>
    let acc2 := acc - moon.weight
    if acc2 < 0 then some i else selectRes acc2 rest

/-- The variant rule applied to the loop selection: selected new moon (0)
becomes 8 and selected full moon (4) becomes 9 when the variant flag is set,
any other selection is returned as is, and a fallthrough returns 0. -/
def variantRule (extra : Bool) : Option ℕ → ℕ
  | some i =>
    if extra = true ∧ i = 0 then 8
    else if extra = true ∧ i = 4 then 9
    else i
  | none => 0

/-- The function `step_phase` of `moonmoji.rs`.  The draw
`rand::random::<f64>()` is the explicit parameter `r`;
`random_value.unwrap_or(0.1)` is `Option.getD`. -/
def step_phase (phase : ℚ) (random_value : Option ℚ) (r : ℚ) : ℕ :=
  let extra_emoji := decide (r ≤ random_value.getD 0.1)
  selectLoop extra_emoji (phase * PHASE_WEIGHT) PHASES.enum

/-- Closed form of the variant-free selection made by the loop on the
concrete ten-entry table, written with the cumulative weights as thresholds
on the accumulator value. -/
def binOfAcc (x : ℚ) : ℕ :=
  if x < 1 then 0
  else if x < 7.3825 then 1
  else if x < 8.3825 then 2
  else if x < 14.765 then 3
  else if x < 15.765 then 4
  else if x < 22.1475 then 5
  else if x < 23.1475 then 6
  else if x < 29.53 then 7
  else 0

/-- Cumulative weights of the canonical entries of the phase table:
`0, 1, 7.3825, 8.3825, 14.765, 15.765, 22.1475, 23.1475, 29.53`.  Dividing
by the total weight gives the canonical bin boundaries of the spec. -/
def cumWeights : List ℚ :=
  [0, 1, 7.3825, 8.3825, 14.765, 15.765, 22.1475, 23.1475, 29.53]

/-- Floor of the base-2 logarithm of a natural number (0 for inputs 0, 1). -/
def log2floor (n : ℕ) : ℕ :=
  if h : 2 ≤ n then log2floor (n / 2) + 1 else 0
termination_by n
decreasing_by exact Nat.div_lt_self (by omega) (by omega)

/-- Floor of the base-2 logarithm of a positive rational `a / b`, computed
from `log2floor` of numerator and denominator with a one-step correction. -/
def ratFloorLog2 (q : ℚ) : ℤ :=
  let a := q.num.natAbs
  let b := q.den
  let c := log2floor a
  let d := log2floor b
  if b * 2 ^ c ≤ a * 2 ^ d then (c : ℤ) - d else (c : ℤ) - d - 1

/-- The rational value `2 ^ e` for an integer exponent `e`. -/
def qpow2 (e : ℤ) : ℚ :=
  if 0 ≤ e then ((2 ^ e.natAbs : ℕ) : ℚ) else 1 / ((2 ^ e.natAbs : ℕ) : ℚ)

/-- Rounding of a positive rational to the nearest binary64 value
(53 significant bits, ties to even), in the normal range of the format —
which covers every value appearing in this development.  The scaled value
`q · 2^(52 − ⌊log₂ q⌋)` lies in `[2^52, 2^53)`; it is rounded to an integer
mantissa half-to-even using integer division and remainder. -/
def roundPos (q : ℚ) : ℚ :=
  let e : ℤ := ratFloorLog2 q - 52
  let a := q.num.natAbs
  let b := q.den
  let num := a * 2 ^ (if 0 ≤ e then 0 else e.natAbs)
  let den := b * 2 ^ (if 0 ≤ e then e.natAbs else 0)
  let n := num / den
  let rem := num % den
  let m : ℕ :=
    if den < 2 * rem then n + 1
    else if 2 * rem < den then n
    else if n % 2 = 0 then n else n + 1
  (m : ℚ) * qpow2 e

/-- The binary64 (IEEE-754 double) value nearest to a rational, with ties to
even; the exact value of an `f64` literal or of an exactly rounded `f64`
operation on exactly represented operands. -/
def toF64 (q : ℚ) : ℚ :=
  if q = 0 then 0 else if q < 0 then -roundPos (-q) else roundPos q

/-- IEEE-754 binary64 addition: exact rational sum, rounded. -/
def fladd (x y : ℚ) : ℚ := toF64 (x + y)

/-- The constant `PHASE_WEIGHT` of `moonmoji.rs` as Rust evaluates it: the
left-to-right IEEE-754 double sum of the ten weight literals
`1.0 + 6.3825 + 1.0 + 6.3825 + 1.0 + 6.3825 + 1.0 + 6.3825 + 0.0 + 0.0`. -/
def PHASE_WEIGHT_f64 : ℚ :=
  fladd (fladd (fladd (fladd (fladd (fladd (fladd (fladd (fladd
    (toF64 1.0) (toF64 6.3825)) (toF64 1.0)) (toF64 6.3825)) (toF64 1.0))
    (toF64 6.3825)) (toF64 1.0)) (toF64 6.3825)) (toF64 0.0)) (toF64 0.0)

/-- The 24-entry table `CLOCKS` of `clockmoji.rs`, indices 0–23 in the order
12:00, 12:30, 1:00, 1:30, …, 11:00, 11:30. -/
def CLOCKS : List String := [
  "🕛", "🕧", "🕐", "🕜", "🕑", "🕝", "🕒", "🕞", "🕓", "🕟", "🕔", "🕠",
  "🕕", "🕡", "🕖", "🕢", "🕗", "🕣", "🕘", "🕤", "🕙", "🕥", "🕚", "🕦"]

/-- The constant `DURATION = 60 * 30` of `clockmoji.rs` (half an hour in
seconds). -/
def DURATION : ℕ := 60 * 30

/-- The function `get_emoji` of `clockmoji.rs`, with the local-time instant
represented by its seconds since local midnight (`0 ≤ s < 86400`).  Adding
`Duration::minutes(15)` and re-reading `num_seconds_from_midnight` yields
`(s + 15·60) mod 86400` under chrono's calendar arithmetic (no DST special
cases, as in the source). -/
def clock_get_emoji (s : ℕ) : String :=
  CLOCKS.getD (((s + 15 * 60) % 86400) / DURATION % CLOCKS.length) ""

noncomputable section

/-- The constant `DAY_MILLIS` of `moonmoji.rs`. -/
def DAY_MILLIS : ℝ := 1000 * 60 * 60 * 24

/-- The constant `J1970` of `moonmoji.rs`. -/
def J1970 : ℝ := 2440588

/-- The constant `J2000` of `moonmoji.rs`. -/
def J2000 : ℝ := 2451545

/-- The constant `RADS = π / 180` of `moonmoji.rs`. -/
def RADS : ℝ := Real.pi / 180

/-- The constant `SDIST` of `moonmoji.rs`: Earth–Sun distance in km. -/
def SDIST : ℝ := 149598000

/-- The constant `EARTH = RADS * 23.4397` of `moonmoji.rs`: obliquity. -/
def EARTH : ℝ := RADS * 23.4397

/-- The constant `ZERO = 0.0` of `moonmoji.rs`. -/
def ZERO : ℝ := 0

/-- The constant `ONE = 1.0` of `moonmoji.rs`. -/
def ONE : ℝ := 1

/-- Solar equatorial coordinates, as in `moonmoji.rs`. -/
structure SunCoords where
  dec : ℝ
  ra : ℝ

/-- Lunar equatorial coordinates and distance, as in `moonmoji.rs`. -/
structure MoonCoords where
  ra : ℝ
  dec : ℝ
  dist : ℝ

/-- The two-argument arctangent `f64::atan2(y, x)` on the reals: angle of the
point `(x, y)` in `(−π, π]`, with the IEEE convention `atan2(0, 0) = 0` (the
signed-zero distinctions of the binary format do not exist on ℝ). -/
def atan2 (y x : ℝ) : ℝ :=
  if 0 < x then Real.arctan (y / x)
  else if x < 0 then
    (if 0 ≤ y then Real.arctan (y / x) + Real.pi
     else Real.arctan (y / x) - Real.pi)
  else if 0 < y then Real.pi / 2
  else if y < 0 then -(Real.pi / 2)
  else 0

/-- `f64::copysign(x, s)`: the magnitude of `x` with the sign of `s` (on ℝ,
where a negative zero does not exist, `s = 0` gives the positive sign). -/
def copysign (x s : ℝ) : ℝ := if s < 0 then -|x| else |x|

/-- The function `to_days` of `moonmoji.rs`, taking the Unix-millisecond
timestamp of the instant. -/
def to_days (millis : ℝ) : ℝ := millis / DAY_MILLIS - 0.5 + J1970 - J2000

/-- The inner function `ecliptic_longitude` of `sun_coords`. -/
def ecliptic_longitude (m : ℝ) : ℝ :=
  let c := RADS * (1.9148 * Real.sin m + 0.02 * Real.sin (2 * m) +
    0.0003 * Real.sin (3 * m))
  let p := RADS * 102.9372
  m + c + p + Real.pi

/-- The function `sun_coords` of `moonmoji.rs`, exactly as written in the
source, with its `ZERO.sin()`, `ZERO.cos()` and `ZERO.tan()` terms. -/
def sun_coords (d : ℝ) : SunCoords :=
  let m := RADS * (357.5291 + 0.98560028 * d)
  let l := ecliptic_longitude m
  { dec := Real.arcsin (Real.sin ZERO * Real.cos EARTH +
      Real.cos ZERO * Real.sin EARTH * Real.sin l),
    ra := atan2 (Real.sin l * Real.cos EARTH - Real.tan ZERO * Real.sin EARTH)
      (Real.cos l) }

/-- Modelled from the spec (§4.2.2): the simplified forms
`dec = asin(sin ε · sin L)` and `ra = atan2(sin L · cos ε, cos L)`, for the
refinement claim comparing them with `sun_coords` as written. -/
def sun_coords_simplified (d : ℝ) : SunCoords :=
  let m := RADS * (357.5291 + 0.98560028 * d)
  let l := ecliptic_longitude m
  { dec := Real.arcsin (Real.sin EARTH * Real.sin l),
    ra := atan2 (Real.sin l * Real.cos EARTH) (Real.cos l) }

/-- The function `moon_coords` of `moonmoji.rs`. -/
def moon_coords (d : ℝ) : MoonCoords :=
  let l := RADS * (218.316 + 13.176396 * d)
  let m := RADS * (134.963 + 13.064993 * d)
  let f := RADS * (93.272 + 13.229350 * d)
  let long := l + RADS * 6.289 * Real.sin m
  let lat := RADS * 5.128 * Real.sin f
  { dec := Real.arcsin (Real.sin lat * Real.cos EARTH +
      Real.cos lat * Real.sin EARTH * Real.sin long),
    ra := atan2 (Real.sin long * Real.cos EARTH - Real.tan lat * Real.sin EARTH)
      (Real.cos long),
    dist := 385001 - 20905 * Real.cos m }

/-- The local `phi` of `get_phase`: geocentric elongation of the Moon. -/
def phi_val (d : ℝ) : ℝ :=
  Real.arccos (Real.sin (sun_coords d).dec * Real.sin (moon_coords d).dec +
    Real.cos (sun_coords d).dec * Real.cos (moon_coords d).dec *
      Real.cos ((sun_coords d).ra - (moon_coords d).ra))

/-- The local `inc` of `get_phase`: the phase angle. -/
def inc_val (d : ℝ) : ℝ :=
  atan2 (SDIST * Real.sin (phi_val d))
    ((moon_coords d).dist - SDIST * Real.cos (phi_val d))

/-- The local `angle` of `get_phase`: the signed position-angle reference. -/
def angle_val (d : ℝ) : ℝ :=
  atan2 (Real.cos (sun_coords d).dec * Real.sin ((sun_coords d).ra - (moon_coords d).ra))
    (Real.sin (sun_coords d).dec * Real.cos (moon_coords d).dec -
      Real.cos (sun_coords d).dec * Real.sin (moon_coords d).dec *
        Real.cos ((sun_coords d).ra - (moon_coords d).ra))

/-- The function `get_phase` of `moonmoji.rs`, taking the Unix-millisecond
timestamp of the (always supplied) UTC instant. -/
def get_phase (millis : ℝ) : ℝ :=
  0.5 + 0.5 * inc_val (to_days millis) *
    copysign ONE (angle_val (to_days millis)) / Real.pi

end

/-! ## Lemmas and theorems -/

set_option maxRecDepth 100000
set_option maxHeartbeats 2000000

lemma hPW : PHASE_WEIGHT = 2953 / 100 := by norm_num [PHASE_WEIGHT]

lemma log2floor_of_ge (n : ℕ) (h : 2 ≤ n) : log2floor n = log2floor (n / 2) + 1 := by
  rw [log2floor, dif_pos h]

lemma log2floor_of_lt (n : ℕ) (h : n < 2) : log2floor n = 0 := by
  rw [log2floor, dif_neg (by omega)]

lemma selectLoop_eq_variantRule (b : Bool) (l : List (ℕ × MoonMoji)) :
    ∀ acc : ℚ, selectLoop b acc l = variantRule b (selectRes acc l) := by
  induction l with
  | nil => intro acc; rfl
  | cons hd tl ih =>
    intro acc
    obtain ⟨i, moon⟩ := hd
    by_cases h : acc - moon.weight < 0
    · simp [selectLoop, selectRes, h, variantRule]
    · simp [selectLoop, selectRes, h, ih]

lemma step_phase_eq (phase : ℚ) (rv : Option ℚ) (r : ℚ) :
    step_phase phase rv r =
      variantRule (decide (r ≤ rv.getD 0.1)) (selectRes (phase * PHASE_WEIGHT) PHASES.enum) := by
  simpa [step_phase] using
    selectLoop_eq_variantRule (decide (r ≤ rv.getD 0.1)) PHASES.enum (phase * PHASE_WEIGHT)

lemma selectRes_mem (l : List (ℕ × MoonMoji)) :
    ∀ (acc : ℚ) (i : ℕ), selectRes acc l = some i → i ∈ l.map Prod.fst := by
  induction l with
  | nil => intro acc i h; simp [selectRes] at h
  | cons hd tl ih =>
    intro acc i h
    obtain ⟨j, moon⟩ := hd
    by_cases hc : acc - moon.weight < 0
    · simp [selectRes, hc] at h
      simp [h]
    · simp only [selectRes, hc, if_neg] at h
      simp only [List.map_cons, List.mem_cons]
      exact Or.inr (ih _ _ h)

lemma selectRes_index_lt (acc : ℚ) (i : ℕ)
    (h : selectRes acc PHASES.enum = some i) : i < 10 := by
  have hm := selectRes_mem PHASES.enum acc i h
  rw [List.enum_map_fst] at hm
  have : PHASES.length = 10 := by simp [PHASES]
  rw [this] at hm
  exact List.mem_range.mp hm

set_option maxHeartbeats 2000000 in
lemma selectLoop_false_eq_binOfAcc (x : ℚ) :
    selectLoop false x PHASES.enum = binOfAcc x := by
  simp only [PHASES, List.enum, List.enumFrom, selectLoop, binOfAcc,
    Bool.false_eq_true, false_and, if_false]
  norm_num
  split_ifs <;> first | rfl | (exfalso; linarith)

lemma binOfAcc_le_seven (x : ℚ) : binOfAcc x ≤ 7 := by
  unfold binOfAcc
  split_ifs <;> omega

set_option maxHeartbeats 2000000 in
lemma binOfAcc_mono (x y : ℚ) (hxy : x ≤ y) (hy : y < 2953 / 100) :
    binOfAcc x ≤ binOfAcc y := by
  unfold binOfAcc
  split_ifs <;> first | omega | (exfalso; linarith)

lemma step_phase_pos_r (phase r : ℚ) (hr : 0 < r) :
    step_phase phase (some 0) r = selectLoop false (phase * PHASE_WEIGHT) PHASES.enum := by
  simp only [step_phase, Option.getD_some]
  rw [decide_eq_false (not_le.mpr hr)]

lemma step_phase_zero_char (phase r : ℚ) (hr : 0 < r) :
    step_phase phase (some 0) r = binOfAcc (phase * PHASE_WEIGHT) := by
  rw [step_phase_pos_r phase r hr, selectLoop_false_eq_binOfAcc]

lemma atan2_nonneg_le_pi (y x : ℝ) (hy : 0 ≤ y) :
    0 ≤ atan2 y x ∧ atan2 y x ≤ Real.pi := by
  have hπ := Real.pi_pos
  unfold atan2
  split_ifs with h1 h2 h3 h4
  · refine ⟨?_, ?_⟩
    · rw [← Real.arctan_zero]
      exact Real.arctan_strictMono.monotone (div_nonneg hy h1.le)
    · exact (Real.arctan_lt_pi_div_two _).le.trans (by linarith)
  · have hlow := Real.neg_pi_div_two_lt_arctan (y / x)
    have hup : Real.arctan (y / x) ≤ 0 := by
      rw [← Real.arctan_zero]
      exact Real.arctan_strictMono.monotone (div_nonpos_of_nonneg_of_nonpos hy h2.le)
    constructor <;> linarith
  · constructor <;> linarith
  · exact absurd hy (by linarith)
  · constructor <;> linarith

/-- C2: for every finite UTC instant (every real Unix-millisecond timestamp
`t`), the phase fraction `get_phase(t)` lies in the closed interval `[0, 1]`:
the phase angle `inc` is an `atan2` whose first argument is non-negative,
hence lies in `[0, π]`, and `0.5 + 0.5·inc·copysign(1, angle)/π` then cannot
leave `[0, 1]`. -/
theorem get_phase_mem_unit_interval (t : ℝ) :
    0 ≤ get_phase t ∧ get_phase t ≤ 1 := by
  have hπ := Real.pi_pos
  have hphi0 : 0 ≤ phi_val (to_days t) := by
    unfold phi_val; exact Real.arccos_nonneg _
  have hphipi : phi_val (to_days t) ≤ Real.pi := by
    unfold phi_val; exact Real.arccos_le_pi _
  have hy : 0 ≤ SDIST * Real.sin (phi_val (to_days t)) :=
    mul_nonneg (by norm_num [SDIST])
      (Real.sin_nonneg_of_nonneg_of_le_pi hphi0 hphipi)
  have hinc : 0 ≤ inc_val (to_days t) ∧ inc_val (to_days t) ≤ Real.pi := by
    unfold inc_val
    exact atan2_nonneg_le_pi _ _ hy
  have hc : copysign ONE (angle_val (to_days t)) = 1 ∨
      copysign ONE (angle_val (to_days t)) = -1 := by
    unfold copysign ONE
    split_ifs <;> simp
  unfold get_phase
  obtain ⟨hi0, hip⟩ := hinc
  rcases hc with h | h <;> rw [h]
  · have hd0 : 0 ≤ 0.5 * inc_val (to_days t) * 1 / Real.pi := by positivity
    have hd1 : 0.5 * inc_val (to_days t) * 1 / Real.pi ≤ 0.5 := by
      rw [div_le_iff hπ]; nlinarith
    constructor <;> linarith
  · have hd0 : 0 ≤ 0.5 * inc_val (to_days t) / Real.pi := by positivity
    have hd1 : 0.5 * inc_val (to_days t) / Real.pi ≤ 0.5 := by
      rw [div_le_iff hπ]; nlinarith
    have hrw : 0.5 * inc_val (to_days t) * (-1) / Real.pi =
        -(0.5 * inc_val (to_days t) / Real.pi) := by ring
    rw [hrw]
    constructor <;> linarith

/-- C3 counterexample: the draw `r = 0` is a legal value of the uniform
source on `[0, 1)`, and with variant probability `p = 0.0` the comparison
`r <= p` still sets the variant flag, so a phase in the new-moon bin returns
the variant index 8, outside `{0, …, 7}`. -/
theorem step_phase_zero_prob_variant_possible :
    ((0 : ℚ) ≤ 0 ∧ (0 : ℚ) < 1) ∧ step_phase 0 (some 0) 0 = 8 := by
  constructor
  · norm_num
  · norm_num [step_phase, selectLoop, PHASES, PHASE_WEIGHT, List.enum, List.enumFrom]

/-- C3 amended: for every phase in `[0, 1]` (the range of `get_phase`) and
every draw `r` in the open interval `(0, 1)` — so that `r ≤ 0` fails and the
variant rule is genuinely disabled — `step_phase(phase, 0.0)` produces a
canonical index in `{0, …, 7}`, never the variant indices 8 or 9. -/
theorem step_phase_zero_prob_canonical (phase r : ℚ)
    (h0 : 0 ≤ phase) (h1 : phase ≤ 1) (hr0 : 0 < r) (hr1 : r < 1) :
    step_phase phase (some 0) r ≤ 7 := by
  rw [step_phase_zero_char phase r hr0]
  exact binOfAcc_le_seven _

/-- C3 witness: the theorem applied at `phase = 1/2`, `r = 1/2`. -/
theorem step_phase_zero_prob_canonical_witness :
    (0 : ℚ) ≤ 1/2 ∧ (1/2 : ℚ) ≤ 1 ∧ step_phase (1/2) (some 0) (1/2) ≤ 7 :=
  ⟨by norm_num, by norm_num,
    step_phase_zero_prob_canonical (1/2) (1/2) (by norm_num) (by norm_num)
      (by norm_num) (by norm_num)⟩

/-- C4 counterexample: as stated the claim fails twice on the code.  At
`phase = 0` the draws `r = 0` and `r = 1/2` give different results (8 versus
0), so with `p = 0.0` the result is not independent of the random draw; and
at the admissible phases `99/100 ≤ 1` the value at the right endpoint
`phase = 1` (loop fallthrough, 0) is strictly below the value at `99/100`
(bin 7), so the map is not monotone on all of `[0, 1]`. -/
theorem step_phase_zero_prob_det_mono_fails :
    step_phase 0 (some 0) 0 ≠ step_phase 0 (some 0) (1/2) ∧
    ((99/100 : ℚ) ≤ 1 ∧
      step_phase 1 (some 0) (1/2) < step_phase (99/100) (some 0) (1/2)) := by
  refine ⟨?_, by norm_num, ?_⟩
  · norm_num [step_phase, selectLoop, PHASES, PHASE_WEIGHT, List.enum, List.enumFrom]
  · norm_num [step_phase, selectLoop, PHASES, PHASE_WEIGHT, List.enum, List.enumFrom]

/-- C4 amended: with variant probability `p = 0.0` and draws `r` in `(0, 1)`
(the draw `r = 0` trips the variant flag through `r ≤ 0`), `step_phase` is
independent of the draw; it is monotonically non-decreasing in `phase` for
phases in `[0, 1)` (at `phase = 1` exactly, the loop falls through and
returns 0); and on `[0, 1)` the canonical bins are delimited exactly by the
cumulative weight fractions `0, 1/29.53, 7.3825/29.53, 8.3825/29.53,
14.765/29.53, 15.765/29.53, 22.1475/29.53, 23.1475/29.53, 29.53/29.53`. -/
theorem step_phase_zero_prob_det_mono :
    (∀ phase r r' : ℚ, 0 < r → 0 < r' →
      step_phase phase (some 0) r = step_phase phase (some 0) r') ∧
    (∀ p1 p2 r : ℚ, p1 ≤ p2 → p2 < 1 → 0 < r →
      step_phase p1 (some 0) r ≤ step_phase p2 (some 0) r) ∧
    (∀ i : ℕ, i < 8 → ∀ phase r : ℚ, 0 < r →
      cumWeights.getD i 0 / PHASE_WEIGHT ≤ phase →
      phase < cumWeights.getD (i + 1) 0 / PHASE_WEIGHT →
      step_phase phase (some 0) r = i) := by
  refine ⟨?_, ?_, ?_⟩
  · intro phase r r' hr hr'
    rw [step_phase_zero_char phase r hr, step_phase_zero_char phase r' hr']
  · intro p1 p2 r h12 h2 hr
    rw [step_phase_zero_char p1 r hr, step_phase_zero_char p2 r hr]
    refine binOfAcc_mono _ _ ?_ ?_
    · have : (0 : ℚ) ≤ PHASE_WEIGHT := by rw [hPW]; norm_num
      exact mul_le_mul_of_nonneg_right h12 this
    · rw [hPW]; linarith
  · intro i hi phase r hr hlo hhi
    rw [step_phase_zero_char phase r hr, hPW]
    rw [hPW] at hlo hhi
    interval_cases i <;>
    · simp only [cumWeights, List.getD_cons_zero, List.getD_cons_succ] at hlo hhi
      norm_num at hhi hlo
      unfold binOfAcc
      split_ifs <;> first | rfl | (exfalso; linarith)

/-- C4 witness: the theorem applied at concrete inputs — determinism at
`phase = 1/4` with draws `1/2` and `1/3`, monotonicity from `1/4` to `3/4`,
and the bin characterization at `phase = 1/2`, which lies in bin 4
(`14.765/29.53 ≤ 1/2 < 15.765/29.53`). -/
theorem step_phase_zero_prob_det_mono_witness :
    step_phase (1/4) (some 0) (1/2) = step_phase (1/4) (some 0) (1/3) ∧
    step_phase (1/4) (some 0) (1/2) ≤ step_phase (3/4) (some 0) (1/2) ∧
    step_phase (1/2) (some 0) (1/2) = 4 := by
  refine ⟨step_phase_zero_prob_det_mono.1 (1/4) (1/2) (1/3) (by norm_num) (by norm_num),
    step_phase_zero_prob_det_mono.2.1 (1/4) (3/4) (1/2) (by norm_num) (by norm_num) (by norm_num),
    step_phase_zero_prob_det_mono.2.2 4 (by norm_num) (1/2) (1/2) (by norm_num) ?_ ?_⟩
  · norm_num [cumWeights, PHASE_WEIGHT, List.getD_cons_succ, List.getD_cons_zero]
  · norm_num [cumWeights, PHASE_WEIGHT, List.getD_cons_succ, List.getD_cons_zero]

/-- C5: the variant rule of `step_phase`.  Whenever the weighted loop selects
index `i` and the variant flag `r ≤ p` is set, index 0 (new moon) is turned
into 8 and index 4 (full moon) into 9, and every other selection is returned
unchanged; an absent probability parameter defaults to `p = 0.1`. -/
theorem step_phase_variant_rule :
    (∀ (phase p r : ℚ) (i : ℕ),
      selectRes (phase * PHASE_WEIGHT) PHASES.enum = some i →
      step_phase phase (some p) r =
        if r ≤ p ∧ i = 0 then 8 else if r ≤ p ∧ i = 4 then 9 else i) ∧
    (∀ phase r : ℚ, step_phase phase none r = step_phase phase (some 0.1) r) := by
  constructor
  · intro phase p r i h
    rw [step_phase_eq, h]
    simp only [Option.getD_some, variantRule, decide_eq_true_eq]
  · intro phase r
    rfl

/-- C5 witness: the theorem applied at `phase = 1/2`, `p = 0`, `r = 1/2`,
where the loop selects index 4 and the variant flag is off. -/
theorem step_phase_variant_rule_witness :
    step_phase (1/2) (some 0) (1/2) = 4 ∧
    step_phase (1/2) none (1/2) = step_phase (1/2) (some 0.1) (1/2) := by
  have h4 : selectRes ((1/2 : ℚ) * PHASE_WEIGHT) PHASES.enum = some 4 := by
    norm_num [selectRes, PHASES, PHASE_WEIGHT, List.enum, List.enumFrom]
  refine ⟨?_, step_phase_variant_rule.2 (1/2) (1/2)⟩
  rw [step_phase_variant_rule.1 (1/2) 0 (1/2) 4 h4]
  norm_num

/-- C6: for every phase input (also outside `[0, 1]`), every probability and
every draw, `step_phase` returns an index below the length 10 of the
`PHASES` table, so the indexing in `get_emoji` is always in bounds; and when
the weighted loop runs through all ten entries without the accumulator
dropping below zero, `step_phase` returns 0. -/
theorem step_phase_index_bounded (phase : ℚ) (rv : Option ℚ) (r : ℚ) :
    step_phase phase rv r < PHASES.length ∧
    (selectRes (phase * PHASE_WEIGHT) PHASES.enum = none → step_phase phase rv r = 0) := by
  have hlen : PHASES.length = 10 := by simp [PHASES]
  rw [step_phase_eq, hlen]
  constructor
  · cases hsel : selectRes (phase * PHASE_WEIGHT) PHASES.enum with
    | none => simp [variantRule]
    | some i =>
      have hi : i < 10 := selectRes_index_lt _ _ hsel
      simp only [variantRule]
      split_ifs <;> omega
  · intro h
    rw [h]
    rfl

/-- C6 witness: the theorem applied at `phase = 2` (accumulator above the
total weight, loop fallthrough), `p = 0`, `r = 1`. -/
theorem step_phase_index_bounded_witness :
    step_phase 2 (some 0) 1 < PHASES.length ∧ step_phase 2 (some 0) 1 = 0 :=
  ⟨(step_phase_index_bounded 2 (some 0) 1).1,
    (step_phase_index_bounded 2 (some 0) 1).2
      (by norm_num [selectRes, PHASES, PHASE_WEIGHT, List.enum, List.enumFrom])⟩

/-- C7: the stored total-weight constant, computed as the left-to-right
IEEE-754 binary64 sum of the ten table weights
`1.0 + 6.3825 + 1.0 + 6.3825 + 1.0 + 6.3825 + 1.0 + 6.3825 + 0.0 + 0.0`,
is exactly the binary64 value of the literal `29.53`. -/
theorem PHASE_WEIGHT_f64_eq_29_53 : PHASE_WEIGHT_f64 = toF64 29.53 := by
  norm_num [PHASE_WEIGHT_f64, fladd, toF64, roundPos, ratFloorLog2, qpow2,
    log2floor_of_ge, log2floor_of_lt]

/-- C8: for every day count `d`, `sun_coords` exactly as written in the
source — with its `sin(0)`, `cos(0)` and `tan(0)` terms — equals the
simplified forms `dec = asin(sin ε · sin L)`, `ra = atan2(sin L · cos ε,
cos L)` stated by the spec (over the reals, where the vanished terms are
exactly 0, 1 and 0). -/
theorem sun_coords_eq_simplified (d : ℝ) : sun_coords d = sun_coords_simplified d := by
  simp [sun_coords, sun_coords_simplified, ZERO, Real.sin_zero, Real.cos_zero,
    Real.tan_zero, zero_mul, one_mul, zero_add, sub_zero]

/-- C9: for every local-time instant, given by its seconds `s` since local
midnight, the clock mapper returns the glyph at index
`⌊(s + 15·60) / 1800⌋ mod 24` of the 24-entry clock table — the +15 minute
shift, the division by the half-hour `DURATION`, and the wrap `mod 24`. -/
theorem clock_emoji_index (s : ℕ) (hs : s < 86400) :
    clock_get_emoji s = CLOCKS.getD ((s + 15 * 60) / 1800 % 24) "" := by
  unfold clock_get_emoji DURATION
  have hlen : CLOCKS.length = 24 := by simp [CLOCKS]
  rw [hlen]
  congr 1
  omega

/-- C9 witness: the theorem applied at the spec's example 12:44:59, i.e.
`s = 45899`: the shifted value is 46799, `46799 / 1800 = 25`, `25 mod 24 = 1`,
glyph 🕧. -/
theorem clock_emoji_index_witness :
    45899 < 86400 ∧ clock_get_emoji 45899 = "🕧" := by
  refine ⟨by norm_num, ?_⟩
  rw [clock_emoji_index 45899 (by norm_num)]
  rfl

/-- C10: for every day count `d`, the geocentric distance computed by
`moon_coords` lies in `[364096, 405906]` km (it is `385001 − 20905 · cos M`
with `cos M ∈ [−1, 1]`), and in particular is strictly positive. -/
theorem moon_coords_dist_bounds (d : ℝ) :
    364096 ≤ (moon_coords d).dist ∧ (moon_coords d).dist ≤ 405906 ∧
    0 < (moon_coords d).dist := by
  have h1 := Real.neg_one_le_cos (RADS * (134.963 + 13.064993 * d))
  have h2 := Real.cos_le_one (RADS * (134.963 + 13.064993 * d))
  simp only [moon_coords]
  refine ⟨by linarith, by linarith, by linarith⟩
